import Mathlib

/-!
# lld/COFF/DLL.h: the import, delay-load, export and path-patch containers

A shallow embedding of the classes declared in `lld/COFF/DLL.h`.

* A `std::vector<T>` is a `List T`; `push_back` appends at the end.
* A pointer held in a vector is modelled by the object it points to; the
  vectors are assumed to hold valid pointers, as `make<T>(...)` returns.
* A `void` member function is a function from the object's state to its new
  state; a member function that returns a value and is not `const` returns
  the value together with the state it leaves.
* `uint64_t` and `size_t` values are natural numbers reduced modulo `2^64`.
* Indexing an empty vector (`v[0]`, `v.back()`) has no defined result; the
  accessors that do so return an `Option`, with `none` for that case.
-/

namespace lld.coff

/-! ## Types declared outside DLL.h -/

/-- Modelled from the spec: the linker context `COFFLinkerContext`, declared
outside DLL.h. DLL.h only stores references to it, so it is observed by its
identity. -/
structure COFFLinkerContext where
  id : Nat
deriving DecidableEq, Repr

/-- Modelled from the spec: a `DefinedImportData *` (Symbols.h), the resolved
symbol a builder is handed. DLL.h stores these pointers and never looks behind
them, so a pointer is observed by its address. -/
structure DefinedImportDataPtr where
  addr : Nat
deriving DecidableEq, Repr

/-- Modelled from the spec: a `Defined *` (Symbols.h), the delay-load helper
symbol, observed by its address. -/
structure DefinedPtr where
  addr : Nat
deriving DecidableEq, Repr

/-- Modelled from the spec: class `StringChunk` (Chunks.h), the chunk
`make<StringChunk>(dll)` builds; it holds the string it was constructed from. -/
structure StringChunk where
  str : String
deriving DecidableEq, Repr

/-- Class `StringChunkReservedSize` (DLL.h): the private members `str` and
`ctx`. -/
structure StringChunkReservedSize where
  str : String
  ctx : COFFLinkerContext
deriving DecidableEq, Repr

/-- The width of `uint64_t` and `size_t`. -/
def word64 : Nat := 2 ^ 64

/-- Unsigned 64-bit addition. -/
def add64 (a b : Nat) : Nat := (a + b) % word64

/-- Unsigned 64-bit subtraction. -/
def sub64 (a b : Nat) : Nat := (a % word64 + word64 - b % word64) % word64

/-- The default member initializer of `FixPathContents::version`. -/
def versionDefault : Nat := 2

/-- The default member initializer of `FixPathContents::dllname_max_size`. -/
def dllnameMaxSizeDefault : Nat := 301

/-- Modelled from the spec: `StringChunk::getSize()`. Class `StringChunk` is
declared in Chunks.h, which is not part of DLL.h. The spec on the chunk
`addIData` builds: "yields a chunk whose size is exactly the configured reserved
size (301), not the string's length". -/
def StringChunk.getSize (_c : StringChunk) : Nat := dllnameMaxSizeDefault

/-- Modelled from the spec: `StringChunkReservedSize::getSize()`, declared in
DLL.h and defined outside it. The spec: "`getSize()` always returns the
configured constant (default 301 bytes), never the literal string length". -/
def StringChunkReservedSize.getSize (_c : StringChunkReservedSize) : Nat :=
  dllnameMaxSizeDefault

/-- Modelled from the spec: the dynamic class of a `Chunk` (Chunks.h): one of the
two string chunks DLL.h names, or any other subclass, an "opaque output
byte-producer" observed by the value its `getSize()` returns. -/
inductive ChunkBody where
  | stringChunk (c : StringChunk)
  | stringChunkReservedSize (c : StringChunkReservedSize)
  | otherChunk (size : Nat)
deriving DecidableEq, Repr

/-- Modelled from the spec: a `Chunk` object (Chunks.h), "a chunk abstraction
exposing address/size": its dynamic class and the address it currently holds. -/
structure Chunk where
  body : ChunkBody
  rva : Nat
deriving DecidableEq, Repr

/-- Modelled from the spec: the virtual `Chunk::getSize()` (Chunks.h), a
`size_t`, dispatched on the dynamic class. -/
def Chunk.getSize (c : Chunk) : Nat :=
  match c.body with
  | .stringChunk s => s.getSize
  | .stringChunkReservedSize s => s.getSize
  | .otherChunk size => size % word64

/-- Modelled from the spec: the accessor `Chunk::getRVA()` (Chunks.h), read as a
`uint64_t`: it returns the address the chunk holds, whether or not layout has
assigned one. -/
def Chunk.getRVA (c : Chunk) : Nat := c.rva % word64

/-- The expression `make<StringChunk>(dll)`: a new `StringChunk` holding `dll`;
it holds address 0 until layout assigns one. -/
def makeStringChunk (dll : String) : Chunk :=
  { body := .stringChunk { str := dll }, rva := 0 }

/-! ## IdataContents -/

/-- Class `IdataContents`: its seven public vectors. -/
structure IdataContents where
  imports : List DefinedImportDataPtr := []
  dirs : List Chunk := []
  lookups : List Chunk := []
  addresses : List Chunk := []
  hints : List Chunk := []
  dllNames : List Chunk := []
  dllNamesStrings : List String := []
deriving DecidableEq, Repr

namespace IdataContents

/-- A default-constructed `IdataContents`: every vector is empty. -/
def fresh : IdataContents := {}

/-- Member `void add(DefinedImportData *sym) { imports.push_back(sym); }`. -/
def add (c : IdataContents) (sym : DefinedImportDataPtr) : IdataContents :=
  { c with imports := c.imports ++ [sym] }

/-- Member `bool empty() { return imports.empty(); }`: the result and the
state the call leaves. -/
def empty (c : IdataContents) : Bool × IdataContents :=
  (c.imports.isEmpty, c)

/-- The calls `add(s1); ...; add(sn)` in order. -/
def addAll (c : IdataContents) (syms : List DefinedImportDataPtr) : IdataContents :=
  syms.foldl add c

end IdataContents

/-! ## FixPathContents -/

/-- Class `FixPathContents`: the two public vectors and the two private
members with their default member initializers. -/
structure FixPathContents where
  iData : List Chunk := []
  delayIData : List Chunk := []
  version : Nat := versionDefault
  dllname_max_size : Nat := dllnameMaxSizeDefault
deriving DecidableEq, Repr

namespace FixPathContents

/-- A default-constructed `FixPathContents`. -/
def fresh : FixPathContents := {}

/-- Member `void addIData(StringRef dll)`. -/
def addIData (f : FixPathContents) (dll : String) : FixPathContents :=
  { f with iData := f.iData ++ [makeStringChunk dll] }

/-- Member `void addDelayIData(StringRef dll)`. -/
def addDelayIData (f : FixPathContents) (dll : String) : FixPathContents :=
  { f with delayIData := f.delayIData ++ [makeStringChunk dll] }

/-- Member `uint32_t getVersion() { return version; }`. -/
def getVersion (f : FixPathContents) : Nat := f.version

/-- Member `uint32_t getDllnameMaxSize() { return dllname_max_size; }`. -/
def getDllnameMaxSize (f : FixPathContents) : Nat := f.dllname_max_size

/-- A call of one of the two mutating members of the registry. -/
inductive Call where
  | addIData (dll : String)
  | addDelayIData (dll : String)
deriving DecidableEq, Repr

/-- One call applied to a registry. -/
def step (f : FixPathContents) : Call → FixPathContents
  | .addIData dll => f.addIData dll
  | .addDelayIData dll => f.addDelayIData dll

/-- A sequence of calls applied in order. -/
def run (f : FixPathContents) (calls : List Call) : FixPathContents :=
  calls.foldl step f

/-- The names passed to `addIData` in a call sequence, in call order. -/
def iDataNames : List Call → List String
  | [] => []
  | .addIData dll :: cs => dll :: iDataNames cs
  | .addDelayIData _ :: cs => iDataNames cs

/-- The names passed to `addDelayIData` in a call sequence, in call order. -/
def delayIDataNames : List Call → List String
  | [] => []
  | .addIData _ :: cs => delayIDataNames cs
  | .addDelayIData dll :: cs => dll :: delayIDataNames cs

end FixPathContents

/-! ## DelayLoadContents -/

/-- Class `DelayLoadContents`: the public `dllNamesStrings` and the private
members. `helper` is not initialised by the constructor. -/
structure DelayLoadContents where
  dllNamesStrings : List String := []
  helper : DefinedPtr
  imports : List DefinedImportDataPtr := []
  dirs : List Chunk := []
  moduleHandles : List Chunk := []
  addresses : List Chunk := []
  names : List Chunk := []
  hintNames : List Chunk := []
  thunks : List Chunk := []
  pdata : List Chunk := []
  unwindinfo : List Chunk := []
  dllNames : List Chunk := []
  ctx : COFFLinkerContext
deriving DecidableEq, Repr

namespace DelayLoadContents

/-- The constructor `DelayLoadContents(COFFLinkerContext &ctx) : ctx(ctx) {}`.
The value `helper` holds afterwards is indeterminate; it is a parameter. -/
def fresh (ctx : COFFLinkerContext) (helper : DefinedPtr) : DelayLoadContents :=
  { helper := helper, ctx := ctx }

/-- Member `void add(DefinedImportData *sym) { imports.push_back(sym); }`. -/
def add (d : DelayLoadContents) (sym : DefinedImportDataPtr) : DelayLoadContents :=
  { d with imports := d.imports ++ [sym] }

/-- Member `bool empty() { return imports.empty(); }`: the result and the
state the call leaves. -/
def empty (d : DelayLoadContents) : Bool × DelayLoadContents :=
  (d.imports.isEmpty, d)

/-- The calls `add(s1); ...; add(sn)` in order. -/
def addAll (d : DelayLoadContents) (syms : List DefinedImportDataPtr) : DelayLoadContents :=
  syms.foldl add d

/-- Member `uint64_t getDirRVA() { return dirs[0]->getRVA(); }`; `none` when
`dirs` is empty, where `dirs[0]` is not defined. -/
def getDirRVA (d : DelayLoadContents) : Option Nat :=
  match d.dirs with
  | [] => none
  | c :: _ => some c.getRVA

end DelayLoadContents

/-! ## EdataContents -/

/-- Class `EdataContents`: the public vector `chunks` and the context. -/
structure EdataContents where
  chunks : List Chunk
  ctx : COFFLinkerContext
deriving DecidableEq, Repr

namespace EdataContents

/-- Member `uint64_t getRVA() { return chunks[0]->getRVA(); }`; `none` when
`chunks` is empty, where `chunks[0]` is not defined. -/
def getRVA (e : EdataContents) : Option Nat :=
  match e.chunks with
  | [] => none
  | c :: _ => some c.getRVA

/-- Member `uint64_t getSize()`:
`chunks.back()->getRVA() + chunks.back()->getSize() - getRVA()`; `none` when
`chunks` is empty, where `chunks.back()` is not defined. -/
def getSize (e : EdataContents) : Option Nat :=
  match e.chunks.getLast? with
  | none => none
  | some last =>
    match e.getRVA with
    | none => none
    | some first => some (sub64 (add64 last.getRVA last.getSize) first)

end EdataContents

/-! ## StringChunkReservedSize -/

/-- The outcome of a constructor call: the constructed object, or the error
the call stopped with. -/
abbrev Constructed (α : Type) := Except String α

/-- The constructor
`StringChunkReservedSize(COFFLinkerContext &ctx, StringRef s) : str(s), ctx(ctx) {}`:
it initialises the two members and has an empty body. -/
def StringChunkReservedSize.construct (ctx : COFFLinkerContext) (s : String) :
    Constructed StringChunkReservedSize :=
  .ok { str := s, ctx := ctx }

/-- A string of `n` letters `a`. -/
def nameOfLength (n : Nat) : String := String.mk (List.replicate n 'a')

/-! ## Layouts of a chunk list -/

/-- The sum of the sizes the chunks of a list report. -/
def sizeSum (cs : List Chunk) : Nat := (cs.map Chunk.getSize).sum

/-- Each chunk's RVA equals the previous chunk's RVA plus its size. -/
def contiguous : List Chunk → Bool
  | a :: b :: rest => decide (b.getRVA = a.getRVA + a.getSize) && contiguous (b :: rest)
  | _ => true

/-- Each chunk's RVA is at least the previous chunk's RVA plus its size. -/
def inOrder : List Chunk → Bool
  | a :: b :: rest => decide (a.getRVA + a.getSize ≤ b.getRVA) && inOrder (b :: rest)
  | _ => true

/-- No overflow: the end of the last chunk, its RVA plus its size, fits in 64
bits. In a list laid out in order every earlier end is at most a later RVA, so
this is the only sum that can wrap. -/
def endFits (cs : List Chunk) : Bool :=
  match cs.getLast? with
  | none => true
  | some l => decide (l.getRVA + l.getSize < word64)

/-- A chunk of another class with a given address and size. -/
def plainChunk (rva size : Nat) : Chunk := { body := .otherChunk size, rva := rva }

/-! ## Helper lemmas -/

theorem IdataContents.imports_after_addAll (c : IdataContents) (syms : List DefinedImportDataPtr) :
    (c.addAll syms).imports = c.imports ++ syms := by
  induction syms generalizing c with
  | nil => simp [IdataContents.addAll]
  | cons s rest ih =>
    have h := ih (c.add s)
    simp only [IdataContents.addAll, List.foldl_cons] at h ⊢
    rw [h]
    simp [IdataContents.add]

theorem DelayLoadContents.pending_after_addAll (d : DelayLoadContents)
    (syms : List DefinedImportDataPtr) :
    (d.addAll syms).imports = d.imports ++ syms := by
  induction syms generalizing d with
  | nil => simp [DelayLoadContents.addAll]
  | cons s rest ih =>
    have h := ih (d.add s)
    simp only [DelayLoadContents.addAll, List.foldl_cons] at h ⊢
    rw [h]
    simp [DelayLoadContents.add]

theorem FixPathContents.run_cons (f : FixPathContents) (c : FixPathContents.Call)
    (cs : List FixPathContents.Call) :
    f.run (c :: cs) = (f.step c).run cs := rfl

theorem FixPathContents.run_constants (f : FixPathContents)
    (calls : List FixPathContents.Call) :
    (f.run calls).version = f.version ∧
      (f.run calls).dllname_max_size = f.dllname_max_size := by
  induction calls generalizing f with
  | nil => exact ⟨rfl, rfl⟩
  | cons c cs ih =>
    rw [FixPathContents.run_cons]
    cases c <;> exact ih _

theorem FixPathContents.run_vectors (f : FixPathContents)
    (calls : List FixPathContents.Call) :
    (f.run calls).iData
        = f.iData ++ (FixPathContents.iDataNames calls).map makeStringChunk ∧
      (f.run calls).delayIData
        = f.delayIData ++ (FixPathContents.delayIDataNames calls).map makeStringChunk := by
  induction calls generalizing f with
  | nil => simp [FixPathContents.run, FixPathContents.iDataNames,
      FixPathContents.delayIDataNames]
  | cons c cs ih =>
    rw [FixPathContents.run_cons]
    cases c with
    | addIData dll =>
      have h := ih (f.addIData dll)
      simp only [FixPathContents.step, FixPathContents.iDataNames,
        FixPathContents.delayIDataNames]
      rw [h.1, h.2]
      simp [FixPathContents.addIData]
    | addDelayIData dll =>
      have h := ih (f.addDelayIData dll)
      simp only [FixPathContents.step, FixPathContents.iDataNames,
        FixPathContents.delayIDataNames]
      rw [h.1, h.2]
      simp [FixPathContents.addDelayIData]

theorem FixPathContents.names_length (calls : List FixPathContents.Call) :
    (FixPathContents.iDataNames calls).length
        = calls.countP (fun c => match c with | .addIData _ => true | _ => false) ∧
      (FixPathContents.delayIDataNames calls).length
        = calls.countP (fun c => match c with | .addDelayIData _ => true | _ => false) := by
  induction calls with
  | nil => simp [FixPathContents.iDataNames, FixPathContents.delayIDataNames]
  | cons c cs ih =>
    cases c <;>
      simp [FixPathContents.iDataNames, FixPathContents.delayIDataNames, ih.1, ih.2,
        List.countP_cons]

theorem last_of_cons (c : Chunk) (cs : List Chunk) :
    (c :: cs).getLast? = some (cs.getLastD c) := by
  induction cs generalizing c with
  | nil => rfl
  | cons d ds ih => rw [List.getLast?_cons_cons, ih d, List.getLastD_cons]

theorem Chunk.getRVA_lt (c : Chunk) : c.getRVA < word64 :=
  Nat.mod_lt _ (by decide)

theorem word64_eq : word64 = 18446744073709551616 := by decide

theorem Chunk.getSize_lt (c : Chunk) : c.getSize < word64 := by
  unfold Chunk.getSize
  split
  · simp [StringChunk.getSize, dllnameMaxSizeDefault, word64_eq]
  · simp [StringChunkReservedSize.getSize, dllnameMaxSizeDefault, word64_eq]
  · exact Nat.mod_lt _ (by decide)

theorem sizeSum_cons (c : Chunk) (cs : List Chunk) :
    sizeSum (c :: cs) = c.getSize + sizeSum cs := by
  simp [sizeSum]

theorem EdataContents.getSize_cons (c : Chunk) (cs : List Chunk) (ctx : COFFLinkerContext) :
    EdataContents.getSize { chunks := c :: cs, ctx := ctx }
      = some (sub64 (add64 (cs.getLastD c).getRVA (cs.getLastD c).getSize) c.getRVA) := by
  simp only [EdataContents.getSize, EdataContents.getRVA, last_of_cons]

theorem inOrder_end_ge (c : Chunk) (cs : List Chunk) (h : inOrder (c :: cs) = true) :
    c.getRVA + sizeSum (c :: cs) ≤ (cs.getLastD c).getRVA + (cs.getLastD c).getSize := by
  induction cs generalizing c with
  | nil => simp [sizeSum]
  | cons d ds ih =>
    simp only [inOrder, Bool.and_eq_true, decide_eq_true_eq] at h
    have h2 := ih d h.2
    rw [List.getLastD_cons, sizeSum_cons]
    omega

theorem contiguous_end_eq (c : Chunk) (cs : List Chunk) (h : contiguous (c :: cs) = true) :
    (cs.getLastD c).getRVA + (cs.getLastD c).getSize = c.getRVA + sizeSum (c :: cs) := by
  induction cs generalizing c with
  | nil => simp [sizeSum]
  | cons d ds ih =>
    simp only [contiguous, Bool.and_eq_true, decide_eq_true_eq] at h
    have h2 := ih d h.2
    rw [List.getLastD_cons, sizeSum_cons]
    omega

theorem endFits_last (c : Chunk) (cs : List Chunk) (h : endFits (c :: cs) = true) :
    (cs.getLastD c).getRVA + (cs.getLastD c).getSize < word64 := by
  simpa [endFits, last_of_cons] using h

theorem sub64_add64_of_fits (r s first : Nat) (hfit : r + s < word64) (hle : first ≤ r + s) :
    sub64 (add64 r s) first = r + s - first := by
  simp only [sub64, add64, word64_eq] at *
  omega

theorem sub64_add64_self (r s : Nat) (hr : r < word64) (hs : s < word64) :
    sub64 (add64 r s) r = s := by
  simp only [sub64, add64, word64_eq] at *
  omega

theorem nameOfLength_length (n : Nat) : (nameOfLength n).length = n := by
  simp [nameOfLength, String.length]

theorem utf8ByteSize_go_replicate (n : Nat) :
    String.utf8ByteSize.go (List.replicate n 'a') = n := by
  induction n with
  | zero => rfl
  | succ k ih =>
    rw [List.replicate_succ, String.utf8ByteSize.go, ih]
    rfl

theorem nameOfLength_utf8ByteSize (n : Nat) : (nameOfLength n).utf8ByteSize = n := by
  simp only [nameOfLength, String.utf8ByteSize]
  exact utf8ByteSize_go_replicate n

/-! ## The claims -/

/-- C1: from any registry reachable by `addIData`/`addDelayIData` calls, and for
every DLL name `s`, `addIData(s)` appends to `iData` one chunk whose reported
size is the reserved size 301, the value `getDllnameMaxSize()` returns, whatever
the length of `s`; for "KERNEL32.dll" that is 301 and not the length 12. -/
theorem addIData_chunk_has_reserved_size (calls : List FixPathContents.Call) (s : String) :
    ∃ c : Chunk,
      ((FixPathContents.fresh.run calls).addIData s).iData
          = (FixPathContents.fresh.run calls).iData ++ [c] ∧
        c.getSize = 301 ∧
        c.getSize = ((FixPathContents.fresh.run calls).addIData s).getDllnameMaxSize ∧
        (makeStringChunk "KERNEL32.dll").getSize = 301 ∧
        "KERNEL32.dll".length = 12 := by
  refine ⟨makeStringChunk s, rfl, rfl, ?_, rfl, by decide⟩
  have h := (FixPathContents.run_constants FixPathContents.fresh calls).2
  simp only [FixPathContents.getDllnameMaxSize, FixPathContents.addIData]
  rw [h]
  rfl

/-- C3: `add(sym)` always yields a state: `imports` is the previous `imports` with
`sym` appended at the end, every other field is unchanged, and after
`add(s1), ..., add(sn)` on a fresh builder `imports` is exactly `[s1, ..., sn]`,
duplicates kept. -/
theorem IdataContents.add_appends (c : IdataContents) (sym : DefinedImportDataPtr)
    (syms : List DefinedImportDataPtr) :
    (c.add sym).imports = c.imports ++ [sym] ∧
      (c.add sym).dirs = c.dirs ∧
      (c.add sym).lookups = c.lookups ∧
      (c.add sym).addresses = c.addresses ∧
      (c.add sym).hints = c.hints ∧
      (c.add sym).dllNames = c.dllNames ∧
      (c.add sym).dllNamesStrings = c.dllNamesStrings ∧
      (IdataContents.fresh.addAll syms).imports = syms ∧
      (IdataContents.fresh.addAll (syms ++ syms)).imports = syms ++ syms := by
  refine ⟨rfl, rfl, rfl, rfl, rfl, rfl, rfl, ?_, ?_⟩
  · rw [IdataContents.imports_after_addAll]; rfl
  · rw [IdataContents.imports_after_addAll]; rfl

/-- C4: after any sequence of `add` calls on a fresh `IdataContents`, `empty()`
returns true exactly when the sequence is empty, and `empty()` leaves the builder
state as it found it. -/
theorem IdataContents.empty_iff_nothing_added (syms : List DefinedImportDataPtr) :
    (((IdataContents.fresh.addAll syms).empty).1 = true ↔ syms = []) ∧
      ((IdataContents.fresh.addAll syms).empty).2 = IdataContents.fresh.addAll syms := by
  refine ⟨?_, rfl⟩
  simp only [IdataContents.empty, IdataContents.imports_after_addAll, List.isEmpty_iff]
  simp [IdataContents.fresh]

/-- C6: for every sequence of symbols, adding them to a fresh `DelayLoadContents`
and to a fresh `IdataContents` gives the same pending imports list, the
sequence itself, and the same `empty()` result. -/
theorem DelayLoadContents.add_empty_mirror_idata (ctx : COFFLinkerContext)
    (helper : DefinedPtr) (syms : List DefinedImportDataPtr) :
    ((DelayLoadContents.fresh ctx helper).addAll syms).imports = syms ∧
      ((DelayLoadContents.fresh ctx helper).addAll syms).imports
        = (IdataContents.fresh.addAll syms).imports ∧
      (((DelayLoadContents.fresh ctx helper).addAll syms).empty).1
        = ((IdataContents.fresh.addAll syms).empty).1 := by
  have hd : ((DelayLoadContents.fresh ctx helper).addAll syms).imports = syms := by
    rw [DelayLoadContents.pending_after_addAll]; rfl
  have hi : (IdataContents.fresh.addAll syms).imports = syms := by
    rw [IdataContents.imports_after_addAll]; rfl
  refine ⟨hd, by rw [hd, hi], ?_⟩
  simp only [DelayLoadContents.empty, IdataContents.empty, hd, hi]

/-- C7: in every registry reached from a fresh one by any sequence of `addIData`
and `addDelayIData` calls, `getVersion()` returns 2 and `getDllnameMaxSize()`
returns 301. -/
theorem FixPathContents.version_and_max_size_constant
    (calls : List FixPathContents.Call) :
    (FixPathContents.fresh.run calls).getVersion = 2 ∧
      (FixPathContents.fresh.run calls).getDllnameMaxSize = 301 := by
  have h := FixPathContents.run_constants FixPathContents.fresh calls
  simp only [FixPathContents.getVersion, FixPathContents.getDllnameMaxSize]
  rw [h.1, h.2]
  exact ⟨rfl, rfl⟩

/-- C8: `addIData(s)` appends one chunk for `s` at the end of `iData` and leaves
`delayIData` unchanged; `addDelayIData(s)` appends one chunk for `s` at the end
of `delayIData` and leaves `iData` unchanged; after any call sequence on a fresh
registry each vector holds the chunks of its own calls in call order, so its
length is the number of those calls. -/
theorem FixPathContents.vectors_tracked_separately (f : FixPathContents) (s : String)
    (calls : List FixPathContents.Call) :
    (f.addIData s).iData = f.iData ++ [makeStringChunk s] ∧
      (f.addIData s).delayIData = f.delayIData ∧
      (f.addDelayIData s).delayIData = f.delayIData ++ [makeStringChunk s] ∧
      (f.addDelayIData s).iData = f.iData ∧
      (FixPathContents.fresh.run calls).iData
        = (FixPathContents.iDataNames calls).map makeStringChunk ∧
      (FixPathContents.fresh.run calls).delayIData
        = (FixPathContents.delayIDataNames calls).map makeStringChunk ∧
      (FixPathContents.fresh.run calls).iData.length
        = calls.countP (fun c => match c with | .addIData _ => true | _ => false) ∧
      (FixPathContents.fresh.run calls).delayIData.length
        = calls.countP (fun c => match c with | .addDelayIData _ => true | _ => false) := by
  have hv := FixPathContents.run_vectors FixPathContents.fresh calls
  have hn := FixPathContents.names_length calls
  have h1 : (FixPathContents.fresh.run calls).iData
      = (FixPathContents.iDataNames calls).map makeStringChunk := by
    rw [hv.1]; rfl
  have h2 : (FixPathContents.fresh.run calls).delayIData
      = (FixPathContents.delayIDataNames calls).map makeStringChunk := by
    rw [hv.2]; rfl
  refine ⟨rfl, rfl, rfl, rfl, h1, h2, ?_, ?_⟩
  · rw [h1, List.length_map, hn.1]
  · rw [h2, List.length_map, hn.2]

/-- C9: the address accessors test nothing. With a non-empty chunk list `getRVA()`
returns the RVA the first chunk holds and `getSize()` returns a value, whatever
the chunks hold; `getDirRVA()` returns the RVA of `dirs[0]` when `dirs` is
non-empty; each accessor is undefined exactly on the empty list. -/
theorem accessors_unchecked (c : Chunk) (cs : List Chunk) (ctx : COFFLinkerContext)
    (e : EdataContents) (d : DelayLoadContents) :
    EdataContents.getRVA { chunks := c :: cs, ctx := ctx } = some c.getRVA ∧
      (∃ n, EdataContents.getSize { chunks := c :: cs, ctx := ctx } = some n) ∧
      DelayLoadContents.getDirRVA { d with dirs := c :: cs } = some c.getRVA ∧
      (e.getRVA = none ↔ e.chunks = []) ∧
      (e.getSize = none ↔ e.chunks = []) ∧
      (d.getDirRVA = none ↔ d.dirs = []) := by
  refine ⟨rfl, ⟨_, EdataContents.getSize_cons c cs ctx⟩, rfl, ?_, ?_, ?_⟩
  · cases e with
    | mk chunks ectx => cases chunks <;> simp [EdataContents.getRVA]
  · cases e with
    | mk chunks ectx =>
      cases chunks with
      | nil => simp [EdataContents.getSize]
      | cons x xs => simp [EdataContents.getSize_cons]
  · unfold DelayLoadContents.getDirRVA
    cases d.dirs <;> simp

/-- C10: `getSize()` of a non-empty chunk list is (RVA of the last chunk + size of
the last chunk) - (RVA of the first chunk) in unsigned 64-bit arithmetic. With no
overflow, it equals the sum of all chunk sizes when the chunks are contiguous in
list order, and is at least that sum when they are in order with gaps; for a
single chunk it equals that chunk's size. -/
theorem EdataContents.getSize_of_layout (c : Chunk) (cs : List Chunk)
    (ctx : COFFLinkerContext) :
    EdataContents.getSize { chunks := c :: cs, ctx := ctx }
        = some (sub64 (add64 (cs.getLastD c).getRVA (cs.getLastD c).getSize) c.getRVA) ∧
      (contiguous (c :: cs) = true → endFits (c :: cs) = true →
        EdataContents.getSize { chunks := c :: cs, ctx := ctx }
          = some (sizeSum (c :: cs))) ∧
      (inOrder (c :: cs) = true → endFits (c :: cs) = true →
        ∃ n, EdataContents.getSize { chunks := c :: cs, ctx := ctx } = some n ∧
          sizeSum (c :: cs) ≤ n) ∧
      EdataContents.getSize { chunks := [c], ctx := ctx } = some c.getSize := by
  refine ⟨EdataContents.getSize_cons c cs ctx, ?_, ?_, ?_⟩
  · intro hc hfit
    have hend := contiguous_end_eq c cs hc
    have hlast := endFits_last c cs hfit
    rw [EdataContents.getSize_cons, sub64_add64_of_fits _ _ _ hlast (by omega)]
    congr 1
    omega
  · intro ho hfit
    have hend := inOrder_end_ge c cs ho
    have hlast := endFits_last c cs hfit
    refine ⟨_, EdataContents.getSize_cons c cs ctx, ?_⟩
    rw [sub64_add64_of_fits _ _ _ hlast (by omega)]
    omega
  · rw [EdataContents.getSize_cons]
    simp only [List.getLastD_nil]
    rw [sub64_add64_self _ _ c.getRVA_lt c.getSize_lt]

/-- Witness of C10: three chunks at 4096, 4136 and 4200 with sizes 40, 64 and 16
are contiguous and end below `2^64`; `getSize()` is 120, the sum of the sizes. -/
theorem EdataContents.getSize_of_layout_witness :
    contiguous [plainChunk 4096 40, plainChunk 4136 64, plainChunk 4200 16] = true ∧
      inOrder [plainChunk 4096 40, plainChunk 4136 64, plainChunk 4200 16] = true ∧
      endFits [plainChunk 4096 40, plainChunk 4136 64, plainChunk 4200 16] = true ∧
      EdataContents.getSize
          { chunks := [plainChunk 4096 40, plainChunk 4136 64, plainChunk 4200 16],
            ctx := { id := 0 } } = some 120 ∧
      ∃ n, EdataContents.getSize
          { chunks := [plainChunk 4096 40, plainChunk 4136 64, plainChunk 4200 16],
            ctx := { id := 0 } } = some n ∧ 120 ≤ n :=
  ⟨by decide, by decide, by decide,
    (EdataContents.getSize_of_layout (plainChunk 4096 40)
      [plainChunk 4136 64, plainChunk 4200 16] { id := 0 }).2.1 (by decide) (by decide),
    (EdataContents.getSize_of_layout (plainChunk 4096 40)
      [plainChunk 4136 64, plainChunk 4200 16] { id := 0 }).2.2.1 (by decide) (by decide)⟩

/-- The gap clause of C10 needs its no-overflow proviso: a chunk at 0 of size 0
followed by a chunk at 1 of size `2^64 - 1` is in order, the end of the last
chunk wraps to 0, and `getSize()` is 0, below the sum of the sizes. -/
theorem EdataContents.getSize_wraps_without_endFits :
    inOrder [plainChunk 0 0, plainChunk 1 (2 ^ 64 - 1)] = true ∧
      endFits [plainChunk 0 0, plainChunk 1 (2 ^ 64 - 1)] = false ∧
      EdataContents.getSize
          { chunks := [plainChunk 0 0, plainChunk 1 (2 ^ 64 - 1)], ctx := { id := 0 } }
        = some 0 ∧
      sizeSum [plainChunk 0 0, plainChunk 1 (2 ^ 64 - 1)] = 2 ^ 64 - 1 := by
  refine ⟨by decide, by decide, by decide, by decide⟩

/-- C2, as stated, fails: a name of 302 characters is longer than the reserved
size 301, and the constructor returns the chunk holding it; no error is raised. -/
theorem StringChunkReservedSize.construct_accepts_oversized :
    dllnameMaxSizeDefault < (nameOfLength 302).length ∧
      dllnameMaxSizeDefault < (nameOfLength 302).utf8ByteSize ∧
      StringChunkReservedSize.construct { id := 0 } (nameOfLength 302)
        = Except.ok { str := nameOfLength 302, ctx := { id := 0 } } ∧
      ¬ ∃ err, StringChunkReservedSize.construct { id := 0 } (nameOfLength 302)
        = Except.error err := by
  refine ⟨?_, ?_, rfl, ?_⟩
  · rw [nameOfLength_length]; decide
  · rw [nameOfLength_utf8ByteSize]; decide
  rintro ⟨err, h⟩
  simp [StringChunkReservedSize.construct] at h

/-- C2, amended: the constructor of `StringChunkReservedSize` checks nothing; for
every context and every string, whatever its length, it returns the chunk whose
`str` is that string and whose `ctx` is that context. -/
theorem StringChunkReservedSize.construct_always_succeeds (ctx : COFFLinkerContext)
    (s : String) :
    StringChunkReservedSize.construct ctx s = Except.ok { str := s, ctx := ctx } ∧
      ∀ chunk, StringChunkReservedSize.construct ctx s = Except.ok chunk → chunk.str = s := by
  refine ⟨rfl, ?_⟩
  intro chunk h
  simp only [StringChunkReservedSize.construct, Except.ok.injEq] at h
  rw [← h]

/-- C5, as stated, fails: whatever `create` does to the builder, there is no
`create` after which `add(sym)` declines to append `sym`. -/
theorem IdataContents.add_after_create_not_rejected :
    ¬ ∃ create : IdataContents → COFFLinkerContext → IdataContents,
        ∀ (c : IdataContents) (ctx : COFFLinkerContext) (sym : DefinedImportDataPtr),
          ((create c ctx).add sym).imports ≠ (create c ctx).imports ++ [sym] := by
  rintro ⟨create, h⟩
  exact h IdataContents.fresh { id := 0 } { addr := 0 } rfl

/-- C5, amended: `add` is not checked against `create()`. In the state any
`create` leaves, `add(sym)` appends `sym` at the end of `imports` and leaves the
chunk vectors `create` filled as they are. -/
theorem IdataContents.add_after_create_appends
    (create : IdataContents → COFFLinkerContext → IdataContents)
    (c : IdataContents) (ctx : COFFLinkerContext) (sym : DefinedImportDataPtr) :
    ((create c ctx).add sym).imports = (create c ctx).imports ++ [sym] ∧
      ((create c ctx).add sym).dirs = (create c ctx).dirs ∧
      ((create c ctx).add sym).lookups = (create c ctx).lookups ∧
      ((create c ctx).add sym).addresses = (create c ctx).addresses ∧
      ((create c ctx).add sym).hints = (create c ctx).hints ∧
      ((create c ctx).add sym).dllNames = (create c ctx).dllNames ∧
      ((create c ctx).add sym).dllNamesStrings = (create c ctx).dllNamesStrings :=
  ⟨rfl, rfl, rfl, rfl, rfl, rfl, rfl⟩

end lld.coff
